import Mathlib

set_option maxHeartbeats 1000000

/- Shallow embedding of the KYC lookup tool (src/streamlit_app.py).

   The embedding covers: the pieces of the source normalizers the claims
   need (name assembly from process_inquiries, the case normalizer from
   process_cases, the per-source status rewrites), the recency merge over
   the person frame (lines 646-651) and the business frame (lines
   660-667), the expiration rewrite, the display and search logic
   (display_results, search_and_display), and the paginated fetcher
   (fetch_data).

   Modelling conventions: pandas NaN/NaT and Python None become
   `Option.none`; a pandas column becomes a field of a record structure;
   timestamps are natural numbers (UTC instants, larger = more recent);
   `sort_values` becomes a stable insertion sort on the `updated_at`
   field with missing timestamps placed last (the pandas `na_position`
   default); `groupby(...).transform(va)` becomes, for each key, the
   last non-null value of the column in sorted order, with rows whose
   group key is missing receiving a null (the pandas `dropna` default
   for group keys); an uncaught Python exception becomes `Except.error`. -/

/-- Python str.strip: drop whitespace from both ends of a string. -/
def pyStrip (s : String) : String :=
  String.mk (((s.data.dropWhile Char.isWhitespace).reverse.dropWhile Char.isWhitespace).reverse)

/-- Name assembly from process_inquiries lines 49-52: the f-string
    `f"{first} {middle} {last}"` inserts exactly one space at each of the
    two junctions, and `.strip()` trims the ends. -/
def assembleName (f m l : String) : String :=
  pyStrip (f ++ " " ++ m ++ " " ++ l)

/-- Substring test on character lists: some drop of `s` starts with `pat`. -/
def hasSub (s pat : List Char) : Bool :=
  (List.range (s.length + 1)).any (fun i => (s.drop i).take pat.length == pat)

/-- ASCII lowercasing of one character, the model of Python str.lower
    over the data this tool sees. -/
def charLower (c : Char) : Char :=
  if 65 ≤ c.toNat ∧ c.toNat ≤ 90 then Char.ofNat (c.toNat + 32) else c

/-- ASCII lowercasing of a string. -/
def strLower (s : String) : String :=
  String.mk (s.data.map charLower)

/-- Case-insensitive substring containment, the embedding of
    `Series.str.contains(term, case=False)` on a non-null entry. -/
def strContainsCI (s pat : String) : Bool :=
  hasSub (strLower s).data (strLower pat).data

/-- Fold step keeping the most recent non-null value seen. -/
def lastStep {β : Type} (acc x : Option β) : Option β :=
  match x with
  | some v => some v
  | none => acc

/-- Last non-null entry of a column, the embedding of the pandas
    `last` aggregation (which skips nulls). -/
def lastNonNull {β : Type} (xs : List (Option β)) : Option β :=
  xs.foldl lastStep none

/-- Ordering on optional timestamps used by `sort_values`: missing
    timestamps (NaT) compare as greatest, since pandas places them last. -/
def updLe : Option Nat → Option Nat → Bool
  | _, none => true
  | none, some _ => false
  | some a, some b => decide (a ≤ b)

/-- Sort relation on rows induced by a timestamp projection. -/
def keyLE {α : Type} (key : α → Option Nat) (a b : α) : Prop :=
  updLe (key a) (key b) = true

instance {α : Type} (key : α → Option Nat) : DecidableRel (keyLE key) :=
  fun a b => instDecidableEqBool (updLe (key a) (key b)) true

theorem updLe_total (x y : Option Nat) : updLe x y = true ∨ updLe y x = true := by
  cases x with
  | none => cases y <;> simp [updLe]
  | some a =>
    cases y with
    | none => simp [updLe]
    | some b => simp only [updLe, decide_eq_true_eq]; omega

theorem updLe_trans {x y z : Option Nat} (h1 : updLe x y = true) (h2 : updLe y z = true) :
    updLe x z = true := by
  cases x with
  | none => cases y <;> cases z <;> simp_all [updLe]
  | some a =>
    cases y with
    | none => cases z <;> simp_all [updLe]
    | some b =>
      cases z with
      | none => simp [updLe]
      | some c => simp only [updLe, decide_eq_true_eq] at *; omega

theorem updLe_refl (x : Option Nat) : updLe x x = true := by
  cases x <;> simp [updLe]

instance {α : Type} (key : α → Option Nat) : IsTotal α (keyLE key) :=
  ⟨fun _ _ => updLe_total _ _⟩

instance {α : Type} (key : α → Option Nat) : IsTrans α (keyLE key) :=
  ⟨fun _ _ _ h1 h2 => updLe_trans h1 h2⟩

/-- Embedding of `sort_values(updated_at)`: a stable sort, ascending,
    missing timestamps last. -/
def sortRecs {α : Type} (key : α → Option Nat) (l : List α) : List α :=
  List.insertionSort (keyLE key) l

/- ------------------------------------------------------------------ -/
/- Person records and the person-frame merge (lines 646-651).          -/
/- ------------------------------------------------------------------ -/

/-- A row of the concatenated person frame (legacy persons + processed
    inquiries). `email` is `none` for a CSV null; the inquiry normalizer
    itself produces `some ""` for an invalid email. -/
structure PRec where
  email : Option String
  name : Option String
  l2_address : Option String
  status : Option String
  updated_at : Option Nat
deriving DecidableEq

/-- Timestamp projection for person rows. -/
def pUpd (r : PRec) : Option Nat := r.updated_at

/-- The person frame after `sort_values(updated_at)`. -/
def sortPersons (rs : List PRec) : List PRec := sortRecs pUpd rs

/-- The rows of the frame belonging to one email group, in frame order. -/
def groupRows (rs : List PRec) (k : String) : List PRec :=
  rs.filter (fun r => r.email == some k)

/-- Line 647: per-group status after
    `sort_values(updated_at).groupby(email)[status].transform(last)`. -/
def mergedStatus (rs : List PRec) (k : String) : Option String :=
  lastNonNull ((groupRows (sortPersons rs) k).map (fun r => r.status))

/-- Line 648: per-group l2_address, same recipe as the status column. -/
def mergedL2 (rs : List PRec) (k : String) : Option String :=
  lastNonNull ((groupRows (sortPersons rs) k).map (fun r => r.l2_address))

/-- Line 649: per-group updated_at, collapsed to the last non-null value
    in sorted order. -/
def mergedUpdated (rs : List PRec) (k : String) : Option Nat :=
  lastNonNull ((groupRows (sortPersons rs) k).map (fun r => r.updated_at))

/-- One row of the person frame after lines 647-649: status, l2_address
    and updated_at are replaced by their group values; rows with a
    missing email key get nulls (pandas `transform` over a dropped NaN
    group). -/
def collapseRow (rs : List PRec) (r : PRec) : PRec :=
  match r.email with
  | none => { r with status := none, l2_address := none, updated_at := none }
  | some k =>
      { r with status := mergedStatus rs k, l2_address := mergedL2 rs k,
               updated_at := mergedUpdated rs k }

/-- The person frame after lines 647-649. -/
def collapsePersons (rs : List PRec) : List PRec :=
  rs.map (collapseRow rs)

/-- Line 650: the name column is assigned only after line 649 already
    replaced updated_at by the group maximum, so the sort feeding this
    transform runs on the collapsed timestamps. -/
def mergedName (rs : List PRec) (k : String) : Option String :=
  lastNonNull ((groupRows (sortPersons (collapsePersons rs)) k).map (fun r => r.name))

/-- Claim-side recency from the specification data model: an absent
    `updated_at` counts as the epoch minimum and never wins. -/
def specRecency (u : Option Nat) : Nat := u.getD 0

/- ------------------------------------------------------------------ -/
/- Expiration (lines 651 and 665).                                     -/
/- ------------------------------------------------------------------ -/

/-- The pandas comparison `updated_at < cutoff`: false on NaT. -/
def isStale : Option Nat → Nat → Bool
  | none, _ => false
  | some t, c => decide (t < c)

/-- Lines 651/665: `df.loc[(status == "cleared") & (updated_at < now - ttl),
    "status"] = "expired"`, at the level of one merged row. -/
def apply_expiration (status : Option String) (updated : Option Nat) (now ttl : Nat) :
    Option String :=
  if status == some "cleared" && isStale updated (now - ttl) then some "expired" else status

/-- Canonical status enum of the specification (section 3). -/
inductive CanonStatus where
  | not_started
  | incomplete
  | in_review
  | cleared
  | rejected
  | expired
deriving DecidableEq

/-- Modelled from the spec: the canonical reading of the status strings
    the program stores, per the section 3 taxonomy and the section 4.3
    rule that presentation labels are cosmetic; both the plain and the
    presentation-labelled spellings denote the same canonical status. -/
def canonicalStatus : String → Option CanonStatus
  | "cleared" => some CanonStatus.cleared
  | "🟢 cleared" => some CanonStatus.cleared
  | "incomplete" => some CanonStatus.incomplete
  | "🔵 incomplete" => some CanonStatus.incomplete
  | "🌕 retry" => some CanonStatus.incomplete
  | "in review" => some CanonStatus.in_review
  | "🟠 in review" => some CanonStatus.in_review
  | "rejected" => some CanonStatus.rejected
  | "🛑 rejected" => some CanonStatus.rejected
  | "expired" => some CanonStatus.expired
  | "not started" => some CanonStatus.not_started
  | _ => none

/- ------------------------------------------------------------------ -/
/- Business records and the business-frame merge (lines 660-667).      -/
/- ------------------------------------------------------------------ -/

/-- A row of the concatenated business frame (legacy businesses +
    processed cases). -/
structure BRec where
  business_name : Option String
  email : Option String
  l2_address : Option String
  status : Option String
  updated_at : Option Nat
deriving DecidableEq

/-- Timestamp projection for business rows. -/
def bUpd (r : BRec) : Option Nat := r.updated_at

/-- Group key of `groupby(["email", "business_name"])`: missing when
    either column is null (pandas drops such rows from every group). -/
def bKey (r : BRec) : Option (String × String) :=
  match r.email, r.business_name with
  | some e, some b => some (e, b)
  | _, _ => none

/-- Line 661: the business frame is sorted once and stays sorted. -/
def sortBusinesses (rs : List BRec) : List BRec := sortRecs bUpd rs

/-- The rows of a business frame belonging to one (email, business_name)
    group, in frame order. -/
def bGroup (rs : List BRec) (k : String × String) : List BRec :=
  rs.filter (fun r => bKey r == some k)

/-- Line 662: per-group status of the sorted business frame. -/
def mergedBStatus (rs : List BRec) (k : String × String) : Option String :=
  lastNonNull ((bGroup (sortBusinesses rs) k).map (fun r => r.status))

/-- Line 663: per-group l2_address of the sorted business frame. -/
def mergedBL2 (rs : List BRec) (k : String × String) : Option String :=
  lastNonNull ((bGroup (sortBusinesses rs) k).map (fun r => r.l2_address))

/-- Line 664: per-group updated_at of the sorted business frame. -/
def mergedBUpdated (rs : List BRec) (k : String × String) : Option Nat :=
  lastNonNull ((bGroup (sortBusinesses rs) k).map (fun r => r.updated_at))

/-- One row of the business frame after lines 662-664. -/
def collapseBRow (rs : List BRec) (r : BRec) : BRec :=
  match bKey r with
  | none => { r with status := none, l2_address := none, updated_at := none }
  | some k =>
      { r with status := mergedBStatus rs k, l2_address := mergedBL2 rs k,
               updated_at := mergedBUpdated rs k }

/-- Lines 661-664: the sorted business frame with the three columns
    collapsed to their group values. -/
def collapseBusinesses (rs : List BRec) : List BRec :=
  (sortBusinesses rs).map (collapseBRow rs)

/-- Line 665 applied to a business row. -/
def expireB (cutoff : Nat) (r : BRec) : BRec :=
  { r with status :=
      if r.status == some "cleared" && isStale r.updated_at cutoff then some "expired"
      else r.status }

/-- Line 667: `drop_duplicates(subset=["email", "business_name"])`,
    keeping the first occurrence of each key pair. -/
def dedupByKey : List BRec → List (Option String × Option String) → List BRec
  | [], _ => []
  | r :: t, seen =>
      if (r.email, r.business_name) ∈ seen then dedupByKey t seen
      else r :: dedupByKey t ((r.email, r.business_name) :: seen)

/-- Lines 660-667 end to end: sort, collapse by group, expire stale
    cleared rows, drop rows with a null email, drop duplicate keys. The
    cutoff argument is the precomputed `now - 365 days` instant. -/
def merge_businesses (rs : List BRec) (cutoff : Nat) : List BRec :=
  dedupByKey
    (((collapseBusinesses rs).map (expireB cutoff)).filter (fun r => r.email.isSome)) []

/- ------------------------------------------------------------------ -/
/- Status rewrites of the source normalizers (lines 67-74, 107-117).   -/
/- ------------------------------------------------------------------ -/

/-- Raw statuses the inquiry normalizer recognizes. -/
def inquiryVocab : List String :=
  ["approved", "expired", "pending", "created", "declined", "needs_review"]

/-- Line 67 of process_inquiries. -/
def mapApproved (s : String) : String :=
  if s = "approved" then "🟢 cleared" else s

/-- Line 69 of process_inquiries. -/
def mapRetry (s : String) : String :=
  if s = "expired" ∨ s = "pending" ∨ s = "created" then "🌕 retry" else s

/-- Line 71 of process_inquiries. -/
def mapDeclined (s : String) : String :=
  if s = "declined" then "🛑 rejected" else s

/-- Line 73 of process_inquiries. -/
def mapReview (s : String) : String :=
  if s = "needs_review" then "🟠 in review" else s

/-- The sequential status rewrites of process_inquiries (lines 67-74). -/
def mapInquiryStatus (s : String) : String :=
  mapReview (mapDeclined (mapRetry (mapApproved s)))

/-- Line 107 of process_cases: approved becomes the plain string. -/
def mapCaseApproved (s : String) : String :=
  if s = "approved" then "cleared" else s

/-- Line 110 of process_cases: a second, unreachable approved check. -/
def mapCaseApproved2 (s : String) : String :=
  if s = "approved" then "🟢 cleared" else s

/-- Line 112 of process_cases. -/
def mapCaseIncomplete (s : String) : String :=
  if s = "expired" ∨ s = "pending" ∨ s = "created" ∨ s = "Waiting on UBOs" then
    "🔵 incomplete"
  else s

/-- Line 114 of process_cases. -/
def mapCaseDeclined (s : String) : String :=
  if s = "declined" then "🛑 rejected" else s

/-- Line 116 of process_cases. -/
def mapCaseReview (s : String) : String :=
  if s = "Ready for Review" then "🟠 in review" else s

/-- The sequential status rewrites of process_cases (lines 107-117). -/
def mapCaseStatus (s : String) : String :=
  mapCaseReview (mapCaseDeclined (mapCaseIncomplete (mapCaseApproved2 (mapCaseApproved s))))

/- ------------------------------------------------------------------ -/
/- The case normalizer (process_cases, lines 87-129).                  -/
/- ------------------------------------------------------------------ -/

/-- The raw fields process_cases reads from one case item. -/
structure CaseItem where
  case_id : String
  business_name : Option String
  email : Option String
  l2_address : Option String
  status : Option String
  updated_at : Option Nat
deriving DecidableEq

/-- Python truthiness of an optional string: None and the empty string
    are falsy. -/
def pyTruthy : Option String → Bool
  | none => false
  | some s => !(s == "")

/-- Line 98: `str(email).lower().strip() if pd.notna(email) else ""`. -/
def caseEmail : Option String → String
  | none => ""
  | some s => pyStrip (strLower s)

/-- Test for a leading `0x` on an already lowercased string. -/
def leads0x (s : String) : Bool :=
  match s.data with
  | '0' :: 'x' :: _ => true
  | _ => false

/-- Lines 100-105: the l2_address is kept, lowercased and stripped, only
    when it starts with 0x; otherwise it becomes null. -/
def normL2 : Option String → Option String
  | none => none
  | some s =>
      let t := pyStrip (strLower s)
      if leads0x t then some t else none

/-- Lines 119-127: process_cases appends a record only when the
    business-name field is truthy; otherwise the item vanishes. -/
def process_cases (items : List CaseItem) : List BRec :=
  items.filterMap (fun it =>
    if pyTruthy it.business_name then
      some ⟨it.business_name, some (caseEmail it.email), normL2 it.l2_address,
            Option.map mapCaseStatus it.status, it.updated_at⟩
    else none)

/- ------------------------------------------------------------------ -/
/- Display and search (display_results, search_and_display).           -/
/- ------------------------------------------------------------------ -/

/-- The status/timestamp projection of a displayed row. -/
structure DRow where
  status : Option String
  updated_at : Option Nat
deriving DecidableEq

/-- The three observable outcomes of display_results (lines 618-632):
    the early return on an empty frame, the headline built from the row
    at `idxmax(updated_at)`, and the fallback when every timestamp is
    null. -/
inductive DisplayOutcome where
  | noMatching
  | headline (status : Option String)
  | notClear
deriving DecidableEq

/-- Fold step of `idxmax` over the updated_at column: nulls are skipped
    and the first occurrence of the maximum is kept. -/
def pickMax (acc : Option DRow) (r : DRow) : Option DRow :=
  match r.updated_at with
  | none => acc
  | some t =>
      match acc with
      | none => some r
      | some m =>
          match m.updated_at with
          | none => some r
          | some tm => if tm < t then some r else acc

/-- The row selected by `df.loc[df[date_column].idxmax()]`, none when the
    column is entirely null. -/
def idxmaxRow (l : List DRow) : Option DRow := l.foldl pickMax none

/-- Lines 618-632 of display_results, restricted to its observable
    outcome. -/
def display_results (l : List DRow) : DisplayOutcome :=
  match l with
  | [] => DisplayOutcome.noMatching
  | _ :: _ =>
      match idxmaxRow l with
      | some m => DisplayOutcome.headline m.status
      | none => DisplayOutcome.notClear

/-- Null-guarded containment: `Series.str.contains(term, case=False,
    na=False)`. -/
def optContains (o : Option String) (t : String) : Bool :=
  match o with
  | none => false
  | some s => strContainsCI s t

/-- Lines 637-641 on the business frame: the frame has no `name` column,
    so `df.get` substitutes a column of empty strings, whose containment
    test succeeds exactly on the empty term. -/
def matchBRow (t : String) (r : BRec) : Bool :=
  strContainsCI "" t || optContains r.business_name t || optContains r.email t ||
    optContains r.l2_address t

/-- Line 636: `df["status"].fillna("not started")`. -/
def fillStatus (r : BRec) : BRec :=
  { r with status := some (r.status.getD "not started") }

/-- Projection of a business row to what display_results consumes. -/
def toDRow (r : BRec) : DRow := ⟨r.status, r.updated_at⟩

/-- Lines 634-643: search_and_display over the merged business frame. -/
def search_and_display (t : String) (rs : List BRec) : DisplayOutcome :=
  display_results (((rs.map fillStatus).filter (matchBRow t)).map toDRow)

/- ------------------------------------------------------------------ -/
/- The paginated fetcher (fetch_data, lines 21-42).                    -/
/- ------------------------------------------------------------------ -/

/-- One raw item of a page, carrying the attribute the loop inspects. -/
structure PageItem where
  status : String
deriving DecidableEq

/-- The parsed JSON body of one page response: the `data` array when the
    key is present, and the `links.next` cursor when present. A
    non-success HTTP response with a JSON error body parses to a body
    with neither. -/
structure PageBody where
  data : Option (List PageItem)
  next : Option String
deriving DecidableEq

/-- One page interaction: either a response whose body parsed, or a
    transport failure (requests raising, or a body that is not JSON),
    which propagates as an uncaught exception. -/
inductive PageResp where
  | received (body : PageBody)
  | transportError
deriving DecidableEq

/-- Lines 31-34: the accumulator is extended with the whole data array
    and then, when the `data` key is present, a second time with the
    items whose status is neither created nor open. -/
def pageExtend (acc : List PageItem) (b : PageBody) : List PageItem :=
  match b.data with
  | none => acc
  | some items =>
      acc ++ items ++ items.filter (fun i => !(i.status == "created" || i.status == "open"))

/-- The fetch loop of lines 28-40 over a prescribed sequence of page
    interactions: a transport failure aborts the whole call; otherwise
    the loop continues exactly while a next link is present. -/
def fetchDataAux : List PageResp → List PageItem → Except Unit (List PageItem)
  | [], acc => Except.ok acc
  | PageResp.transportError :: _, _ => Except.error ()
  | PageResp.received b :: rest, acc =>
      match b.next with
      | some _ => fetchDataAux rest (pageExtend acc b)
      | none => Except.ok (pageExtend acc b)

/-- fetch_data (lines 21-42). -/
def fetch_data (pages : List PageResp) : Except Unit (List PageItem) :=
  fetchDataAux pages []

/-- Whether a page interaction lets the loop continue to another page. -/
def pageContinues : PageResp → Bool
  | PageResp.received b => b.next.isSome
  | PageResp.transportError => false

/-- Success test on a fetch result. -/
def exceptIsOk : Except Unit (List PageItem) → Bool
  | Except.ok _ => true
  | Except.error _ => false

/- ------------------------------------------------------------------ -/
/- Helper lemmas about lastNonNull and the stable sort.                -/
/- ------------------------------------------------------------------ -/

theorem foldl_lastStep {β : Type} (xs : List (Option β)) (a : Option β) :
    xs.foldl lastStep a = (lastNonNull xs).elim a some := by
  induction xs generalizing a with
  | nil => rfl
  | cons x xs ih =>
    show xs.foldl lastStep (lastStep a x) = (lastNonNull (x :: xs)).elim a some
    have h2 : lastNonNull (x :: xs) = (lastNonNull xs).elim (lastStep none x) some :=
      ih (lastStep none x)
    rw [ih, h2]
    cases lastNonNull xs <;> cases x <;> simp [lastStep]

theorem lastNonNull_cons {β : Type} (x : Option β) (xs : List (Option β)) :
    lastNonNull (x :: xs) = (lastNonNull xs).elim x some := by
  have h2 : lastNonNull (x :: xs) = (lastNonNull xs).elim (lastStep none x) some :=
    foldl_lastStep xs (lastStep none x)
  rw [h2]
  cases lastNonNull xs <;> cases x <;> simp [lastStep]

theorem lastNonNull_eq_none {β : Type} :
    ∀ (xs : List (Option β)), lastNonNull xs = none → ∀ x ∈ xs, x = none := by
  intro xs
  induction xs with
  | nil => simp
  | cons x xs ih =>
    intro h y hy
    rw [lastNonNull_cons] at h
    cases hx : lastNonNull xs with
    | some v => rw [hx] at h; simp at h
    | none =>
      rw [hx] at h
      simp only [Option.elim] at h
      rcases List.mem_cons.mp hy with rfl | hy2
      · exact h
      · exact ih hx y hy2

theorem lastNonNull_sorted_some {α β : Type} (key : α → Option Nat) (f : α → Option β) :
    ∀ (l : List α), l.Sorted (keyLE key) → ∀ v, lastNonNull (l.map f) = some v →
      ∃ m, m ∈ l ∧ f m = some v ∧
        ∀ r, r ∈ l → updLe (key r) (key m) = false → f r = none := by
  intro l
  induction l with
  | nil => intro _ v h; simp [lastNonNull] at h
  | cons x t ih =>
    intro hs v h
    rw [List.map_cons, lastNonNull_cons] at h
    have hs2 := List.sorted_cons.mp hs
    cases ht : lastNonNull (t.map f) with
    | some w =>
      rw [ht] at h
      simp only [Option.elim, Option.some.injEq] at h
      obtain ⟨m, hm, hfm, hrest⟩ := ih hs2.2 w ht
      refine ⟨m, List.mem_cons_of_mem _ hm, by rw [hfm, h], ?_⟩
      intro r hr hle
      rcases List.mem_cons.mp hr with rfl | hr2
      · have h3 : updLe (key r) (key m) = true := hs2.1 m hm
        rw [h3] at hle
        exact absurd hle (by decide)
      · exact hrest r hr2 hle
    | none =>
      rw [ht] at h
      simp only [Option.elim] at h
      refine ⟨x, List.mem_cons_self x t, h, ?_⟩
      intro r hr hle
      rcases List.mem_cons.mp hr with rfl | hr2
      · rw [updLe_refl] at hle
        exact absurd hle (by decide)
      · exact lastNonNull_eq_none _ ht (f r) (List.mem_map_of_mem f hr2)

theorem filter_orderedInsert {α : Type} (key : α → Option Nat) (p : α → Bool) :
    ∀ (x : α) (s : List α),
      (∀ a b, a ∈ x :: s → b ∈ x :: s → p a = true → p b = true → key a = key b) →
      (List.orderedInsert (keyLE key) x s).filter p = (x :: s).filter p := by
  intro x s
  induction s with
  | nil => intro _; rfl
  | cons y ys ih =>
    intro h
    have h' : ∀ a b, a ∈ x :: ys → b ∈ x :: ys → p a = true → p b = true → key a = key b := by
      intro a b ha hb
      refine h a b ?_ ?_
      · rcases List.mem_cons.mp ha with rfl | h2
        · exact List.mem_cons_self _ _
        · exact List.mem_cons_of_mem _ (List.mem_cons_of_mem _ h2)
      · rcases List.mem_cons.mp hb with rfl | h2
        · exact List.mem_cons_self _ _
        · exact List.mem_cons_of_mem _ (List.mem_cons_of_mem _ h2)
    by_cases hxy : keyLE key x y
    · simp only [List.orderedInsert, if_pos hxy]
    · simp only [List.orderedInsert, if_neg hxy]
      cases hpx : p x with
      | true =>
        cases hpy : p y with
        | true =>
          exfalso
          have hk : key x = key y :=
            h x y (List.mem_cons_self _ _)
              (List.mem_cons_of_mem _ (List.mem_cons_self _ _)) hpx hpy
          have : keyLE key x y := by
            show updLe (key x) (key y) = true
            rw [hk]
            exact updLe_refl _
          exact hxy this
        | false =>
          simp only [List.filter_cons, hpy, ih h', hpx]
          simp
      | false =>
        cases hpy : p y with
        | true =>
          simp only [List.filter_cons, hpy, ih h', hpx]
          simp
        | false =>
          simp only [List.filter_cons, hpy, ih h', hpx]
          simp

theorem filter_sortRecs {α : Type} (key : α → Option Nat) (p : α → Bool) :
    ∀ (l : List α),
      (∀ a b, a ∈ l → b ∈ l → p a = true → p b = true → key a = key b) →
      (sortRecs key l).filter p = l.filter p := by
  intro l
  induction l with
  | nil => intro _; rfl
  | cons x t ih =>
    intro h
    show (List.orderedInsert (keyLE key) x (List.insertionSort (keyLE key) t)).filter p
        = (x :: t).filter p
    have hsub : ∀ a, a ∈ x :: List.insertionSort (keyLE key) t → a ∈ x :: t := by
      intro a ha
      rcases List.mem_cons.mp ha with rfl | h2
      · exact List.mem_cons_self _ _
      · exact List.mem_cons_of_mem _ ((List.perm_insertionSort _ t).mem_iff.mp h2)
    rw [filter_orderedInsert key p x (List.insertionSort (keyLE key) t)
        (fun a b ha hb => h a b (hsub a ha) (hsub b hb))]
    have ht : (List.insertionSort (keyLE key) t).filter p = t.filter p :=
      ih (fun a b ha hb => h a b (List.mem_cons_of_mem _ ha) (List.mem_cons_of_mem _ hb))
    simp only [List.filter_cons, ht]

theorem mem_groupRows {rs : List PRec} {k : String} {r : PRec} :
    r ∈ groupRows rs k ↔ r ∈ rs ∧ r.email = some k := by
  simp [groupRows, List.mem_filter]

theorem groupRows_perm (rs : List PRec) (k : String) :
    List.Perm (groupRows (sortPersons rs) k) (groupRows rs k) :=
  (List.perm_insertionSort (keyLE pUpd) rs).filter _

theorem groupRows_sorted (rs : List PRec) (k : String) :
    (groupRows (sortPersons rs) k).Sorted (keyLE pUpd) :=
  (List.sorted_insertionSort (keyLE pUpd) rs).sublist (List.filter_sublist _)

theorem mem_bGroup {rs : List BRec} {k : String × String} {r : BRec} :
    r ∈ bGroup rs k ↔ r ∈ rs ∧ bKey r = some k := by
  simp [bGroup, List.mem_filter]

theorem bGroup_perm (rs : List BRec) (k : String × String) :
    List.Perm (bGroup (sortBusinesses rs) k) (bGroup rs k) :=
  (List.perm_insertionSort (keyLE bUpd) rs).filter _

theorem bGroup_sorted (rs : List BRec) (k : String × String) :
    (bGroup (sortBusinesses rs) k).Sorted (keyLE bUpd) :=
  (List.sorted_insertionSort (keyLE bUpd) rs).sublist (List.filter_sublist _)

/- ------------------------------------------------------------------ -/
/- Helper lemmas about idxmax.                                         -/
/- ------------------------------------------------------------------ -/

theorem pickMax_cases {acc : Option DRow} {r m : DRow} (h : pickMax acc r = some m) :
    acc = some m ∨ m = r := by
  cases hr : r.updated_at with
  | none => simp [pickMax, hr] at h; exact Or.inl h
  | some t =>
    cases acc with
    | none => simp [pickMax, hr] at h; exact Or.inr h.symm
    | some m0 =>
      cases hm0 : m0.updated_at with
      | none => simp [pickMax, hr, hm0] at h; exact Or.inr h.symm
      | some tm =>
        by_cases hlt : tm < t
        · simp [pickMax, hr, hm0, hlt] at h; exact Or.inr h.symm
        · simp [pickMax, hr, hm0, hlt] at h; exact Or.inl (by rw [h])

theorem pickMax_bound {r : DRow} (acc : Option DRow) {u : Nat} (hr : r.updated_at = some u) :
    ∃ a ta, pickMax acc r = some a ∧ a.updated_at = some ta ∧ u ≤ ta := by
  cases acc with
  | none => exact ⟨r, u, by simp [pickMax, hr], hr, le_refl u⟩
  | some m0 =>
    cases hm0 : m0.updated_at with
    | none => exact ⟨r, u, by simp [pickMax, hr, hm0], hr, le_refl u⟩
    | some tm =>
      by_cases hlt : tm < u
      · exact ⟨r, u, by simp [pickMax, hr, hm0, hlt], hr, le_refl u⟩
      · exact ⟨m0, tm, by simp [pickMax, hr, hm0, hlt], hm0, le_of_not_lt hlt⟩

theorem pickMax_acc_bound {a0 : DRow} (r : DRow) {ta0 : Nat}
    (ha0 : a0.updated_at = some ta0) :
    ∃ a ta, pickMax (some a0) r = some a ∧ a.updated_at = some ta ∧ ta0 ≤ ta := by
  cases hr : r.updated_at with
  | none => exact ⟨a0, ta0, by simp [pickMax, hr], ha0, le_refl ta0⟩
  | some t =>
    by_cases hlt : ta0 < t
    · exact ⟨r, t, by simp [pickMax, hr, ha0, hlt], hr, le_of_lt hlt⟩
    · exact ⟨a0, ta0, by simp [pickMax, hr, ha0, hlt], ha0, le_refl ta0⟩

theorem idxmax_aux :
    ∀ (l : List DRow) (acc : Option DRow) (m : DRow),
      (∀ a, acc = some a → ∃ ta, a.updated_at = some ta) →
      l.foldl pickMax acc = some m →
      (m ∈ l ∨ acc = some m) ∧
        ∃ t, m.updated_at = some t ∧
          (∀ r, r ∈ l → ∀ u, r.updated_at = some u → u ≤ t) ∧
          (∀ a ta, acc = some a → a.updated_at = some ta → ta ≤ t) := by
  intro l
  induction l with
  | nil =>
    intro acc m hacc h
    simp only [List.foldl_nil] at h
    obtain ⟨ta, hta⟩ := hacc m h
    refine ⟨Or.inr h, ta, hta, by simp, ?_⟩
    intro a ta2 ha hta2
    rw [h] at ha
    cases ha
    rw [hta] at hta2
    cases hta2
    exact le_refl _
  | cons r l ih =>
    intro acc m hacc h
    simp only [List.foldl_cons] at h
    have hacc' : ∀ a, pickMax acc r = some a → ∃ ta, a.updated_at = some ta := by
      intro a ha
      cases hr : r.updated_at with
      | none => rw [pickMax, hr] at ha; exact hacc a ha
      | some t =>
        rcases pickMax_cases ha with h2 | h2
        · exact hacc a h2
        · exact ⟨t, by rw [h2, hr]⟩
    obtain ⟨hmem, t1, ht1, hbl, hba⟩ := ih (pickMax acc r) m hacc' h
    constructor
    · rcases hmem with h2 | h2
      · exact Or.inl (List.mem_cons_of_mem _ h2)
      · rcases pickMax_cases h2 with h3 | h3
        · exact Or.inr h3
        · exact Or.inl (h3 ▸ List.mem_cons_self _ _)
    · refine ⟨t1, ht1, ?_, ?_⟩
      · intro r2 hr2 u hu
        rcases List.mem_cons.mp hr2 with rfl | h3
        · obtain ⟨a, ta, hp, hta, hle⟩ := pickMax_bound acc hu
          exact le_trans hle (hba a ta hp hta)
        · exact hbl r2 h3 u hu
      · intro a0 ta0 ha0 hta0
        subst ha0
        obtain ⟨a, ta, hp, hta, hle⟩ := pickMax_acc_bound r hta0
        exact le_trans hle (hba a ta hp hta)

theorem idxmaxRow_spec {l : List DRow} {m : DRow} (h : idxmaxRow l = some m) :
    m ∈ l ∧ ∃ t, m.updated_at = some t ∧
      ∀ r, r ∈ l → ∀ u, r.updated_at = some u → u ≤ t := by
  obtain ⟨hmem, t, ht, hb, _⟩ :=
    idxmax_aux l none m (by intro a ha; cases ha) h
  rcases hmem with h2 | h2
  · exact ⟨h2, t, ht, hb⟩
  · cases h2

/- ------------------------------------------------------------------ -/
/- Helper lemmas about drop_duplicates.                                -/
/- ------------------------------------------------------------------ -/

theorem dedup_subset :
    ∀ (l : List BRec) (seen : List (Option String × Option String)) (x : BRec),
      x ∈ dedupByKey l seen → x ∈ l := by
  intro l
  induction l with
  | nil => intro seen x h; simp [dedupByKey] at h
  | cons r t ih =>
    intro seen x h
    rw [dedupByKey] at h
    by_cases hk : (r.email, r.business_name) ∈ seen
    · rw [if_pos hk] at h
      exact List.mem_cons_of_mem _ (ih seen x h)
    · rw [if_neg hk] at h
      rcases List.mem_cons.mp h with rfl | h2
      · exact List.mem_cons_self _ _
      · exact List.mem_cons_of_mem _ (ih _ x h2)

theorem dedup_keys_fresh :
    ∀ (l : List BRec) (seen : List (Option String × Option String)) (x : BRec),
      x ∈ dedupByKey l seen → ¬((x.email, x.business_name) ∈ seen) := by
  intro l
  induction l with
  | nil => intro seen x h; simp [dedupByKey] at h
  | cons r t ih =>
    intro seen x h
    rw [dedupByKey] at h
    by_cases hk : (r.email, r.business_name) ∈ seen
    · rw [if_pos hk] at h
      exact ih seen x h
    · rw [if_neg hk] at h
      rcases List.mem_cons.mp h with rfl | h2
      · exact hk
      · intro hmem
        exact ih _ x h2 (List.mem_cons_of_mem _ hmem)

theorem dedup_pairwise :
    ∀ (l : List BRec) (seen : List (Option String × Option String)),
      (dedupByKey l seen).Pairwise
        (fun a b => (a.email, a.business_name) ≠ (b.email, b.business_name)) := by
  intro l
  induction l with
  | nil => intro seen; simp [dedupByKey]
  | cons r t ih =>
    intro seen
    rw [dedupByKey]
    by_cases hk : (r.email, r.business_name) ∈ seen
    · rw [if_pos hk]; exact ih seen
    · rw [if_neg hk]
      refine List.Pairwise.cons ?_ (ih _)
      intro b hb heq
      exact dedup_keys_fresh t _ b hb (heq ▸ List.mem_cons_self _ _)

theorem dedup_covers :
    ∀ (l : List BRec) (seen : List (Option String × Option String)) (x : BRec),
      x ∈ l →
      (x.email, x.business_name) ∈ seen ∨
        ∃ o, o ∈ dedupByKey l seen ∧
          (o.email, o.business_name) = (x.email, x.business_name) := by
  intro l
  induction l with
  | nil => intro seen x h; simp at h
  | cons r t ih =>
    intro seen x h
    rw [dedupByKey]
    by_cases hk : (r.email, r.business_name) ∈ seen
    · rw [if_pos hk]
      rcases List.mem_cons.mp h with rfl | h2
      · exact Or.inl hk
      · exact ih seen x h2
    · rw [if_neg hk]
      rcases List.mem_cons.mp h with rfl | h2
      · exact Or.inr ⟨x, List.mem_cons_self _ _, rfl⟩
      · rcases ih ((r.email, r.business_name) :: seen) x h2 with h3 | ⟨o, ho, hko⟩
        · rcases List.mem_cons.mp h3 with h4 | h4
          · exact Or.inr ⟨r, List.mem_cons_self _ _, h4.symm⟩
          · exact Or.inl h4
        · exact Or.inr ⟨o, List.mem_cons_of_mem _ ho, hko⟩

/- ------------------------------------------------------------------ -/
/- Helper lemmas about the business pipeline.                          -/
/- ------------------------------------------------------------------ -/

theorem collapseBRow_email (rs : List BRec) (r : BRec) :
    (collapseBRow rs r).email = r.email := by
  cases hb : bKey r <;> simp [collapseBRow, hb]

theorem collapseBRow_bname (rs : List BRec) (r : BRec) :
    (collapseBRow rs r).business_name = r.business_name := by
  cases hb : bKey r <;> simp [collapseBRow, hb]

theorem collapseBusinesses_keys (rs : List BRec) (r : BRec) (hr : r ∈ sortBusinesses rs) :
    ∃ c, c ∈ collapseBusinesses rs ∧ c.email = r.email ∧ c.business_name = r.business_name :=
  ⟨collapseBRow rs r, List.mem_map_of_mem _ hr, collapseBRow_email rs r,
    collapseBRow_bname rs r⟩

theorem collapseBusinesses_shape (rs : List BRec) (c : BRec)
    (hc : c ∈ collapseBusinesses rs) :
    ∃ r, r ∈ sortBusinesses rs ∧ c.email = r.email ∧ c.business_name = r.business_name := by
  obtain ⟨r, hr, hcr⟩ := List.mem_map.mp hc
  subst hcr
  exact ⟨r, hr, collapseBRow_email rs r, collapseBRow_bname rs r⟩

theorem expireB_keys (cutoff : Nat) (r : BRec) :
    (expireB cutoff r).email = r.email ∧ (expireB cutoff r).business_name = r.business_name := by
  constructor <;> rfl

/- ------------------------------------------------------------------ -/
/- Helper lemma about the fetch loop.                                  -/
/- ------------------------------------------------------------------ -/

theorem fetchDataAux_error :
    ∀ (ps qs : List PageResp) (acc : List PageItem),
      (∀ p, p ∈ ps → pageContinues p = true) →
      fetchDataAux (ps ++ PageResp.transportError :: qs) acc = Except.error () := by
  intro ps
  induction ps with
  | nil => intro qs acc _; rfl
  | cons p ps ih =>
    intro qs acc h
    cases p with
    | transportError =>
      have := h _ (List.mem_cons_self _ _)
      simp [pageContinues] at this
    | received b =>
      have hb := h _ (List.mem_cons_self _ _)
      simp only [pageContinues, Option.isSome] at hb
      cases hn : b.next with
      | none => rw [hn] at hb; cases hb
      | some c =>
        show fetchDataAux (PageResp.received b :: (ps ++ PageResp.transportError :: qs)) acc
            = Except.error ()
        rw [fetchDataAux, hn]
        exact ih qs (pageExtend acc b) (fun p hp => h p (List.mem_cons_of_mem _ hp))

/- ------------------------------------------------------------------ -/
/- Helper lemmas about strings.                                        -/
/- ------------------------------------------------------------------ -/

theorem string_eq_of_data {a b : String} (h : a.data = b.data) : a = b := by
  cases a
  cases b
  exact congrArg String.mk h

theorem pyStrip_of_clean (s : String) (hne : s.data ≠ [])
    (hh : ∀ c, s.data.head? = some c → c.isWhitespace = false)
    (hl : ∀ c, s.data.getLast? = some c → c.isWhitespace = false) :
    pyStrip s = s := by
  obtain ⟨c, cs, hcs⟩ := List.exists_cons_of_ne_nil hne
  have hc : c.isWhitespace = false := hh c (by rw [hcs]; rfl)
  have h1 : s.data.dropWhile Char.isWhitespace = s.data := by
    rw [hcs, List.dropWhile_cons, hc]
    simp
  rcases List.eq_nil_or_concat s.data with h2 | ⟨t, d, h2⟩
  · exact absurd h2 hne
  · have h2' : s.data = t ++ [d] := by rw [h2, List.concat_eq_append]
    have hd : d.isWhitespace = false := by
      refine hl d ?_
      rw [h2', List.getLast?_concat]
    have h3 : s.data.reverse.dropWhile Char.isWhitespace = s.data.reverse := by
      rw [h2', List.reverse_append]
      simp only [List.reverse_cons, List.reverse_nil, List.nil_append, List.singleton_append]
      rw [List.dropWhile_cons, hd]
      simp
    apply string_eq_of_data
    show (((s.data.dropWhile Char.isWhitespace).reverse.dropWhile
        Char.isWhitespace).reverse) = s.data
    rw [h1, h3, List.reverse_reverse]

/- ------------------------------------------------------------------ -/
/- Claim C3.                                                           -/
/- ------------------------------------------------------------------ -/

/-- Claim C3 counterexample: a merged identity carrying the
    presentation-labelled status `🟢 cleared` (the form every
    inquiry-derived cleared identity has, per line 68) is canonically
    cleared and stale, yet line 651 leaves it untouched because it
    compares against the literal string `cleared`; the claim demands it
    become `expired`. -/
theorem c3_counterexample :
    apply_expiration (some "🟢 cleared") (some 100) 1000 365 = some "🟢 cleared" ∧
    canonicalStatus "🟢 cleared" = some CanonStatus.cleared ∧
    100 < 1000 - 365 := by
  refine ⟨rfl, rfl, by decide⟩

/-- Claim C3 as amended: the expiration pass rewrites the status to
    expired exactly when the stored status string is literally `cleared`
    and the timestamp is strictly older than `now - ttl_days`; statuses
    with presentation prefixes are never rewritten, and nothing else
    about the row changes. -/
theorem c3_expiration (s : Option String) (u : Option Nat) (now ttl : Nat) :
    (apply_expiration s u now ttl = s ∨
      (s = some "cleared" ∧ apply_expiration s u now ttl = some "expired")) ∧
    (¬ apply_expiration s u now ttl = s ↔
      (s = some "cleared" ∧ ∃ t, u = some t ∧ t < now - ttl)) := by
  unfold apply_expiration
  by_cases hc : s = some "cleared"
  · subst hc
    cases u with
    | none => simp [isStale]
    | some t =>
      by_cases hlt : t < now - ttl
      · simp [isStale, hlt]
      · simp [isStale, hlt]
  · have hb : (s == some "cleared") = false := by
      rw [beq_eq_false_iff_ne]
      exact hc
    simp [hb, hc]

/-- Witness for the amended C3: the spec scenario with ttl 365, a
    cleared row from 400 days ago expires and one from 10 days ago does
    not; instantiated through the amended theorem at day 1000. -/
theorem c3_witness :
    (apply_expiration (some "cleared") (some 600) 1000 365 = some "cleared" ∨
      ((some "cleared" : Option String) = some "cleared" ∧
        apply_expiration (some "cleared") (some 600) 1000 365 = some "expired")) ∧
    (¬ apply_expiration (some "cleared") (some 600) 1000 365 = some "cleared" ↔
      ((some "cleared" : Option String) = some "cleared" ∧
        ∃ t, (some 600 : Option Nat) = some t ∧ t < 1000 - 365)) :=
  c3_expiration (some "cleared") (some 600) 1000 365

/- ------------------------------------------------------------------ -/
/- Claim C5.                                                           -/
/- ------------------------------------------------------------------ -/

/-- Claim C5 counterexample: a grant round with two contacts, the
    matched one cleared at time 2 and the unmatched one `not started`
    with no timestamp; display_results reports `cleared`, not the
    `incomplete` the claim requires for a round with an unmatched
    contact (and requires that it never be cleared). -/
theorem c5_counterexample :
    display_results [⟨some "cleared", some 2⟩, ⟨some "not started", none⟩]
      = DisplayOutcome.headline (some "cleared") ∧
    ¬ display_results [⟨some "cleared", some 2⟩, ⟨some "not started", none⟩]
      = DisplayOutcome.headline (some "incomplete") := by
  refine ⟨rfl, by decide⟩

/-- Claim C5 as amended: the rollup message reports the status of a
    single most recent row — one whose timestamp is maximal among the
    displayed rows, rows without a timestamp never being selected — and
    performs no all-cleared / any-rejected aggregation over the
    contacts. -/
theorem c5_rollup (l : List DRow) (s : Option String)
    (h : display_results l = DisplayOutcome.headline s) :
    ∃ m, m ∈ l ∧ m.status = s ∧ ∃ t, m.updated_at = some t ∧
      ∀ r, r ∈ l → ∀ u, r.updated_at = some u → u ≤ t := by
  cases l with
  | nil => exact DisplayOutcome.noConfusion h
  | cons x xs =>
    unfold display_results at h
    cases hidx : idxmaxRow (x :: xs) with
    | none => rw [hidx] at h; cases h
    | some m =>
      rw [hidx] at h
      have hs : m.status = s := by injection h
      obtain ⟨hmem, t, ht, hb⟩ := idxmaxRow_spec hidx
      exact ⟨m, hmem, hs, t, ht, hb⟩

/-- Witness for the amended C5 at a concrete two-row frame. -/
theorem c5_witness :
    ∃ m, m ∈ [(⟨some "🟢 cleared", some 7⟩ : DRow), ⟨some "not started", none⟩] ∧
      m.status = some "🟢 cleared" ∧ ∃ t, m.updated_at = some t ∧
      ∀ r, r ∈ [(⟨some "🟢 cleared", some 7⟩ : DRow), ⟨some "not started", none⟩] →
        ∀ u, r.updated_at = some u → u ≤ t :=
  c5_rollup [⟨some "🟢 cleared", some 7⟩, ⟨some "not started", none⟩]
    (some "🟢 cleared") (by decide)

/- ------------------------------------------------------------------ -/
/- Claim C6.                                                           -/
/- ------------------------------------------------------------------ -/

/-- Claim C6 counterexample: the second page is a non-success HTTP
    response whose JSON error body has neither a `data` array nor a
    `links.next` field; the loop simply stops and the partial results of
    page one are returned as a success (each non-created, non-open item
    even appearing twice, lines 31-34), where the claim demands an
    aborted fetch surfacing a fetch error with no partial data. -/
theorem c6_counterexample :
    fetch_data [PageResp.received ⟨some [⟨"approved"⟩], some "cursor"⟩,
        PageResp.received ⟨none, none⟩]
      = Except.ok [⟨"approved"⟩, ⟨"approved"⟩] ∧
    exceptIsOk (fetch_data [PageResp.received ⟨some [⟨"approved"⟩], some "cursor"⟩,
        PageResp.received ⟨none, none⟩]) = true :=
  ⟨rfl, rfl⟩

/-- Claim C6 as amended: only a transport-level failure (requests
    raising, or a non-JSON body) aborts the paginated fetch: whenever
    the pages before it all continue the pagination, the fetch
    surfaces an error and produces no partial item list. -/
theorem c6_transport_aborts (ps qs : List PageResp)
    (h : ∀ p, p ∈ ps → pageContinues p = true) :
    fetch_data (ps ++ PageResp.transportError :: qs) = Except.error () :=
  fetchDataAux_error ps qs [] h

/-- Witness for the amended C6: a transport error on page two aborts the
    fetch with no partial data. -/
theorem c6_witness :
    fetch_data [PageResp.received ⟨some [⟨"approved"⟩], some "c1"⟩,
        PageResp.transportError]
      = Except.error () :=
  c6_transport_aborts [PageResp.received ⟨some [⟨"approved"⟩], some "c1"⟩] []
    (by decide)

/- ------------------------------------------------------------------ -/
/- Claim C7.                                                           -/
/- ------------------------------------------------------------------ -/

/-- Claim C7 counterexample: there is no single designated unknown
    bucket, because two raw statuses outside the known vocabulary map to
    two different values (each passes through verbatim). -/
theorem c7_counterexample :
    ¬ ∃ u : String, ∀ s : String, ¬(s ∈ inquiryVocab) → mapInquiryStatus s = u := by
  rintro ⟨u, h⟩
  have h1 : mapInquiryStatus "completed" = u := h "completed" (by decide)
  have h2 : mapInquiryStatus "failed" = u := h "failed" (by decide)
  have e1 : mapInquiryStatus "completed" = "completed" := by decide
  have e2 : mapInquiryStatus "failed" = "failed" := by decide
  rw [e1] at h1
  rw [e2] at h2
  exact absurd (h1.trans h2.symm) (by decide)

/-- Claim C7 as amended: a raw status outside the known inquiry
    vocabulary passes through the status rewrites unchanged — the mapper
    never crashes on it and never coerces it to a not-started value, but
    it also lands in no designated unknown bucket: the raw provider
    string itself leaks into the canonical column. -/
theorem c7_unknown_passthrough (s : String) (h : ¬(s ∈ inquiryVocab)) :
    mapInquiryStatus s = s := by
  simp only [inquiryVocab, List.mem_cons, List.not_mem_nil, or_false] at h
  push_neg at h
  obtain ⟨h1, h2, h3, h4, h5, h6⟩ := h
  simp [mapInquiryStatus, mapApproved, mapRetry, mapDeclined, mapReview,
    h1, h2, h3, h4, h5, h6]

/-- Witness for the amended C7 at a concrete unknown raw status. -/
theorem c7_witness : mapInquiryStatus "completed" = "completed" :=
  c7_unknown_passthrough "completed" (by decide)

/- ------------------------------------------------------------------ -/
/- Claim C8.                                                           -/
/- ------------------------------------------------------------------ -/

/-- Claim C8 counterexample: searching the empty term over an empty
    merged frame produces exactly the same no-matching outcome that a
    non-empty term with no matches produces, so there is no distinct
    no-query-supplied result. -/
theorem c8_counterexample :
    search_and_display "" ([] : List BRec) = DisplayOutcome.noMatching ∧
    search_and_display "zzz"
        [⟨some "Acme", some "info@acme.io", some "0xabc", some "cleared", some 3⟩]
      = DisplayOutcome.noMatching := by
  refine ⟨rfl, by decide⟩

/-- Claim C8 as amended: the empty term is a universal match — the
    filter keeps every row, because the containment test of the
    substituted empty-string name column succeeds on the empty pattern —
    so search over the empty term displays the whole frame, and it
    yields the no-matching outcome exactly when the frame is empty,
    coinciding there with the outcome of a failed non-empty search. -/
theorem c8_empty_term (rs : List BRec) :
    search_and_display "" rs = display_results ((rs.map fillStatus).map toDRow) ∧
    (search_and_display "" rs = DisplayOutcome.noMatching ↔ rs = []) := by
  have hfilter : (rs.map fillStatus).filter (matchBRow "") = rs.map fillStatus := by
    rw [List.filter_eq_self]
    intro r _
    rfl
  constructor
  · unfold search_and_display
    rw [hfilter]
  · unfold search_and_display
    rw [hfilter]
    cases rs with
    | nil => simp [display_results]
    | cons r t =>
      simp only [List.map_cons]
      constructor
      · intro h
        unfold display_results at h
        cases hidx : idxmaxRow (toDRow (fillStatus r) :: List.map toDRow (List.map fillStatus t)) with
        | some m => rw [hidx] at h; exact DisplayOutcome.noConfusion h
        | none => rw [hidx] at h; exact DisplayOutcome.noConfusion h
      · intro h
        exact List.noConfusion h

/-- Witness for the amended C8 at a concrete one-row frame. -/
theorem c8_witness :
    (search_and_display ""
        [(⟨some "Acme", some "info@acme.io", some "0xabc", none, some 3⟩ : BRec)]
      = display_results
          (([(⟨some "Acme", some "info@acme.io", some "0xabc", none, some 3⟩ : BRec)].map
            fillStatus).map toDRow)) ∧
    (search_and_display ""
        [(⟨some "Acme", some "info@acme.io", some "0xabc", none, some 3⟩ : BRec)]
      = DisplayOutcome.noMatching ↔
      [(⟨some "Acme", some "info@acme.io", some "0xabc", none, some 3⟩ : BRec)] = []) :=
  c8_empty_term [⟨some "Acme", some "info@acme.io", some "0xabc", none, some 3⟩]

/- ------------------------------------------------------------------ -/
/- Claim C9.                                                           -/
/- ------------------------------------------------------------------ -/

/-- Claim C9 counterexample: with an empty middle part the assembled
    display name keeps both junction spaces, producing a doubled
    interior space that the end-trim does not remove. -/
theorem c9_counterexample :
    assembleName "John" "" "Doe" = "John  Doe" ∧
    ¬ assembleName "John" "" "Doe" = "John Doe" ∧
    hasSub (assembleName "John" "" "Doe").data [' ', ' '] = true := by
  refine ⟨by decide, by decide, by decide⟩

/-- Claim C9 as amended: the f-string inserts exactly one space at each
    of the two junctions and strip trims only the ends, so whenever the
    first part starts with a non-whitespace character and the last part
    ends with one, the display name is literally
    `first ++ " " ++ middle ++ " " ++ last` — in particular an empty
    middle part leaves a doubled interior space, while empty first or
    last parts are absorbed by the trim. -/
theorem c9_name_assembly (f m l : String) (hf : f.data ≠ []) (hl : l.data ≠ [])
    (hfh : ∀ c, f.data.head? = some c → c.isWhitespace = false)
    (hlh : ∀ c, l.data.getLast? = some c → c.isWhitespace = false) :
    assembleName f m l = f ++ " " ++ m ++ " " ++ l := by
  unfold assembleName
  apply pyStrip_of_clean
  · obtain ⟨c, cs, hcs⟩ := List.exists_cons_of_ne_nil hf
    simp [String.data_append, hcs]
  · obtain ⟨c, cs, hcs⟩ := List.exists_cons_of_ne_nil hf
    intro c2 hc2
    apply hfh c2
    simp only [String.data_append, List.append_assoc] at hc2
    rw [hcs] at hc2
    simp only [List.cons_append, List.head?_cons] at hc2
    rw [hcs]
    simpa using hc2
  · intro c2 hc2
    apply hlh c2
    rcases List.eq_nil_or_concat l.data with h2 | ⟨t, d, h2⟩
    · exact absurd h2 hl
    · have h2' : l.data = t ++ [d] := by rw [h2, List.concat_eq_append]
      rw [h2', List.getLast?_concat]
      rw [String.data_append, h2'] at hc2
      rw [← List.append_assoc] at hc2
      rw [List.getLast?_concat] at hc2
      exact hc2

/-- Witness for the amended C9: three clean parts joined as the source
    joins them, via the amended theorem. -/
theorem c9_witness :
    assembleName "John" "Quincy" "Doe" = "John" ++ " " ++ "Quincy" ++ " " ++ "Doe" :=
  c9_name_assembly "John" "Quincy" "Doe" (by decide) (by decide) (by decide) (by decide)

/- ------------------------------------------------------------------ -/
/- Claim C10.                                                          -/
/- ------------------------------------------------------------------ -/

/-- Claim C10 (confirmed): a case item whose business-name field is
    missing or empty is dropped by process_cases entirely — no record is
    emitted for it, whatever its other fields hold, so it can never
    reach the business merge. -/
theorem c10_empty_business_dropped (it : CaseItem) (rest : List CaseItem)
    (h : pyTruthy it.business_name = false) :
    process_cases (it :: rest) = process_cases rest := by
  simp [process_cases, List.filterMap_cons, h]

/-- Witness for C10: a case with an empty business name but a valid
    email, chain address, status and timestamp yields no record. -/
theorem c10_witness :
    process_cases [⟨"case-1", some "", some "ops@acme.io", some "0xdead", some "approved",
      some 77⟩] = [] :=
  (c10_empty_business_dropped
    ⟨"case-1", some "", some "ops@acme.io", some "0xdead", some "approved", some 77⟩ []
    (by decide)).trans rfl

/- ------------------------------------------------------------------ -/
/- Helper lemmas about the person pipeline.                            -/
/- ------------------------------------------------------------------ -/

theorem collapseRow_email (rs : List PRec) (r : PRec) :
    (collapseRow rs r).email = r.email := by
  cases h : r.email <;> simp [collapseRow, h]

theorem collapseRow_name (rs : List PRec) (r : PRec) :
    (collapseRow rs r).name = r.name := by
  cases h : r.email <;> simp [collapseRow, h]

theorem collapseRow_upd {rs : List PRec} {r : PRec} {k : String} (h : r.email = some k) :
    (collapseRow rs r).updated_at = mergedUpdated rs k := by
  simp [collapseRow, h]

theorem collapsePersons_upd {rs : List PRec} {a : PRec} {k : String}
    (ha : a ∈ collapsePersons rs) (hak : a.email = some k) :
    a.updated_at = mergedUpdated rs k := by
  obtain ⟨r0, _, rfl⟩ := List.mem_map.mp ha
  rw [collapseRow_email] at hak
  exact collapseRow_upd hak

/-- The name column assigned on line 650 ignores recency entirely: since
    line 649 already collapsed every timestamp of the group to one
    value, the stable sort keeps the rows of a group in frame order, so
    the group value is simply the last non-null name in source order. -/
theorem mergedName_source_order (rs : List PRec) (k : String) :
    mergedName rs k = lastNonNull ((groupRows rs k).map (fun r => r.name)) := by
  have hkeys : ∀ a b, a ∈ collapsePersons rs → b ∈ collapsePersons rs →
      (a.email == some k) = true → (b.email == some k) = true → pUpd a = pUpd b := by
    intro a b ha hb hak hbk
    have hak2 : a.email = some k := by simpa using hak
    have hbk2 : b.email = some k := by simpa using hbk
    show a.updated_at = b.updated_at
    rw [collapsePersons_upd ha hak2, collapsePersons_upd hb hbk2]
  have hstable :=
    filter_sortRecs pUpd (fun r => r.email == some k) (collapsePersons rs) hkeys
  unfold mergedName
  show lastNonNull
      (((sortRecs pUpd (collapsePersons rs)).filter (fun r => r.email == some k)).map
        (fun r => r.name)) = _
  rw [hstable]
  unfold collapsePersons
  rw [List.filter_map]
  have hpred : ∀ r ∈ rs,
      ((fun r => r.email == some k) ∘ collapseRow rs) r = (fun r => r.email == some k) r := by
    intro r _
    show ((collapseRow rs r).email == some k) = (r.email == some k)
    rw [collapseRow_email]
  rw [List.filter_congr hpred, List.map_map]
  have hname : ∀ r ∈ rs.filter (fun r => r.email == some k),
      ((fun r => r.name) ∘ collapseRow rs) r = (fun r => r.name) r := by
    intro r _
    exact collapseRow_name rs r
  rw [List.map_congr_left hname]
  rfl

/- ------------------------------------------------------------------ -/
/- Claim C1.                                                           -/
/- ------------------------------------------------------------------ -/

/-- Claim C1 counterexample: two records for one key, the first dated
    (time 5, status `🟢 cleared`) and the second undated (status
    `🛑 rejected`). Under the specification recency rule the dated
    record uniquely has the maximum `updated_at` (absent timestamps are
    epoch-minimum and never win), so the claim demands its status; but
    pandas sorts NaT last, so the undated record wins and the merged
    status is `🛑 rejected`. -/
theorem c1_counterexample :
    mergedStatus
        [⟨some "e@x.com", some "A", none, some "🟢 cleared", some 5⟩,
         ⟨some "e@x.com", some "B", none, some "🛑 rejected", none⟩] "e@x.com"
      = some "🛑 rejected" ∧
    ¬ mergedStatus
        [⟨some "e@x.com", some "A", none, some "🟢 cleared", some 5⟩,
         ⟨some "e@x.com", some "B", none, some "🛑 rejected", none⟩] "e@x.com"
      = some "🟢 cleared" ∧
    specRecency (none : Option Nat) < specRecency (some 5) := by
  refine ⟨by decide, by decide, by decide⟩

/-- Claim C1 as amended: for a non-empty key whose contributing records
    all carry a status, the merged status is the status of a
    contributing record whose `updated_at` is maximal in the order that
    places absent timestamps last (so an undated record outranks every
    dated one, unlike the epoch-minimum rule of the spec); and
    `last_updated` is the maximum `updated_at` among the records that
    have one, being absent only when none does. -/
theorem c1_last_write (rs : List PRec) (k : String)
    (hne : ¬ groupRows rs k = [])
    (hs : ∀ r, r ∈ groupRows rs k → ¬ r.status = none) :
    (∃ m, m ∈ groupRows rs k ∧ mergedStatus rs k = m.status ∧
      ∀ r, r ∈ groupRows rs k → updLe r.updated_at m.updated_at = true) ∧
    (∀ v, mergedUpdated rs k = some v →
      (∃ m, m ∈ groupRows rs k ∧ m.updated_at = some v) ∧
      ∀ r, r ∈ groupRows rs k → ∀ t, r.updated_at = some t → t ≤ v) ∧
    (mergedUpdated rs k = none → ∀ r, r ∈ groupRows rs k → r.updated_at = none) := by
  have hgperm := groupRows_perm rs k
  have hgsorted := groupRows_sorted rs k
  refine ⟨?_, ?_, ?_⟩
  · cases hms : mergedStatus rs k with
    | none =>
      exfalso
      have hgne : ¬ groupRows (sortPersons rs) k = [] := by
        intro h
        exact hne ((h ▸ hgperm).symm.eq_nil)
      obtain ⟨x, hx⟩ := List.exists_mem_of_ne_nil _ hgne
      have hxnone : x.status = none :=
        lastNonNull_eq_none _ hms x.status
          (List.mem_map_of_mem (fun r => r.status) hx)
      exact hs x (hgperm.mem_iff.mp hx) hxnone
    | some v =>
      obtain ⟨m, hm, hfm, hrest⟩ :=
        lastNonNull_sorted_some pUpd (fun r => r.status) _ hgsorted v hms
      refine ⟨m, hgperm.mem_iff.mp hm, hfm.symm, ?_⟩
      intro r hr
      cases hu : updLe r.updated_at m.updated_at with
      | true => rfl
      | false =>
        exfalso
        exact hs r hr (hrest r (hgperm.mem_iff.mpr hr) hu)
  · intro v hv
    obtain ⟨m, hm, hfm, hrest⟩ :=
      lastNonNull_sorted_some pUpd (fun r => r.updated_at) _ hgsorted v hv
    refine ⟨⟨m, hgperm.mem_iff.mp hm, hfm⟩, ?_⟩
    intro r hr t ht
    cases hu : updLe r.updated_at m.updated_at with
    | false =>
      have := hrest r (hgperm.mem_iff.mpr hr) hu
      rw [ht] at this
      exact Option.noConfusion this
    | true =>
      have hm2 : (m.updated_at : Option Nat) = some v := hfm
      rw [ht, hm2] at hu
      simpa [updLe] using hu
  · intro hnone r hr
    exact lastNonNull_eq_none _ hnone r.updated_at
      (List.mem_map_of_mem (fun r => r.updated_at) (hgperm.mem_iff.mpr hr))

/-- Witness for the amended C1 at a concrete two-record group. -/
theorem c1_witness :
    (∃ m, m ∈ groupRows
        [(⟨some "e@x.com", some "A", none, some "🟢 cleared", some 5⟩ : PRec),
         ⟨some "e@x.com", some "B", none, some "🛑 rejected", some 9⟩] "e@x.com" ∧
      mergedStatus
        [(⟨some "e@x.com", some "A", none, some "🟢 cleared", some 5⟩ : PRec),
         ⟨some "e@x.com", some "B", none, some "🛑 rejected", some 9⟩] "e@x.com"
        = m.status ∧
      ∀ r, r ∈ groupRows
        [(⟨some "e@x.com", some "A", none, some "🟢 cleared", some 5⟩ : PRec),
         ⟨some "e@x.com", some "B", none, some "🛑 rejected", some 9⟩] "e@x.com" →
        updLe r.updated_at m.updated_at = true) ∧
    (∀ v, mergedUpdated
        [(⟨some "e@x.com", some "A", none, some "🟢 cleared", some 5⟩ : PRec),
         ⟨some "e@x.com", some "B", none, some "🛑 rejected", some 9⟩] "e@x.com" = some v →
      (∃ m, m ∈ groupRows
        [(⟨some "e@x.com", some "A", none, some "🟢 cleared", some 5⟩ : PRec),
         ⟨some "e@x.com", some "B", none, some "🛑 rejected", some 9⟩] "e@x.com" ∧
        m.updated_at = some v) ∧
      ∀ r, r ∈ groupRows
        [(⟨some "e@x.com", some "A", none, some "🟢 cleared", some 5⟩ : PRec),
         ⟨some "e@x.com", some "B", none, some "🛑 rejected", some 9⟩] "e@x.com" →
        ∀ t, r.updated_at = some t → t ≤ v) ∧
    (mergedUpdated
        [(⟨some "e@x.com", some "A", none, some "🟢 cleared", some 5⟩ : PRec),
         ⟨some "e@x.com", some "B", none, some "🛑 rejected", some 9⟩] "e@x.com" = none →
      ∀ r, r ∈ groupRows
        [(⟨some "e@x.com", some "A", none, some "🟢 cleared", some 5⟩ : PRec),
         ⟨some "e@x.com", some "B", none, some "🛑 rejected", some 9⟩] "e@x.com" →
        r.updated_at = none) :=
  c1_last_write
    [⟨some "e@x.com", some "A", none, some "🟢 cleared", some 5⟩,
     ⟨some "e@x.com", some "B", none, some "🛑 rejected", some 9⟩] "e@x.com"
    (by decide) (by decide)

/- ------------------------------------------------------------------ -/
/- Claim C2.                                                           -/
/- ------------------------------------------------------------------ -/

/-- Claim C2 counterexample: the record at time 20 has the non-null name
    `New` and is strictly more recent than the record at time 10 with
    name `Old`, yet the merged display name is `Old` — a less-recent
    non-null value won over a more-recent one, because line 650 runs
    after line 649 flattened the timestamps. -/
theorem c2_counterexample :
    mergedName
        [⟨some "jane@x.com", some "New", none, some "cleared", some 20⟩,
         ⟨some "jane@x.com", some "Old", some "0xaaa", some "incomplete", some 10⟩]
      "jane@x.com" = some "Old" ∧
    ¬ mergedName
        [⟨some "jane@x.com", some "New", none, some "cleared", some 20⟩,
         ⟨some "jane@x.com", some "Old", some "0xaaa", some "incomplete", some 10⟩]
      "jane@x.com" = some "New" ∧
    (10 : Nat) < 20 := by
  refine ⟨by decide, by decide, by decide⟩

/-- Claim C2 as amended: chain_address does follow first-non-null-wins
    in recency order — the merged value is the chain address of a
    contributing record such that every strictly more recent record has
    a null chain address (undated records counting as most recent) —
    but display_name does not: it equals the last non-null name in
    source order, with recency ignored. The jane@x.com scenario itself
    still holds, since there the more recent record has a null name. -/
theorem c2_scalar_fields (rs : List PRec) (k : String) (v : String)
    (h : mergedL2 rs k = some v) :
    (∃ m, m ∈ groupRows rs k ∧ m.l2_address = some v ∧
      ∀ r, r ∈ groupRows rs k → updLe r.updated_at m.updated_at = false →
        r.l2_address = none) ∧
    mergedName rs k = lastNonNull ((groupRows rs k).map (fun r => r.name)) := by
  have hgperm := groupRows_perm rs k
  have hgsorted := groupRows_sorted rs k
  constructor
  · obtain ⟨m, hm, hfm, hrest⟩ :=
      lastNonNull_sorted_some pUpd (fun r => r.l2_address) _ hgsorted v h
    refine ⟨m, hgperm.mem_iff.mp hm, hfm, ?_⟩
    intro r hr hu
    exact hrest r (hgperm.mem_iff.mpr hr) hu
  · exact mergedName_source_order rs k

/-- Witness for the amended C2 at the jane@x.com scenario of the spec:
    the Jan 1 record carries the only name and the only chain address,
    the Feb 1 record is email-only; the merged chain address is the Jan
    1 one and the merged name is the last non-null name in source
    order. -/
theorem c2_witness :
    (∃ m, m ∈ groupRows
        [(⟨some "jane@x.com", some "Jane D", some "0xaaa", some "incomplete", some 10⟩ : PRec),
         ⟨some "jane@x.com", none, none, some "cleared", some 20⟩] "jane@x.com" ∧
      m.l2_address = some "0xaaa" ∧
      ∀ r, r ∈ groupRows
        [(⟨some "jane@x.com", some "Jane D", some "0xaaa", some "incomplete", some 10⟩ : PRec),
         ⟨some "jane@x.com", none, none, some "cleared", some 20⟩] "jane@x.com" →
        updLe r.updated_at m.updated_at = false → r.l2_address = none) ∧
    mergedName
        [(⟨some "jane@x.com", some "Jane D", some "0xaaa", some "incomplete", some 10⟩ : PRec),
         ⟨some "jane@x.com", none, none, some "cleared", some 20⟩] "jane@x.com"
      = lastNonNull ((groupRows
        [(⟨some "jane@x.com", some "Jane D", some "0xaaa", some "incomplete", some 10⟩ : PRec),
         ⟨some "jane@x.com", none, none, some "cleared", some 20⟩] "jane@x.com").map
        (fun r => r.name)) :=
  c2_scalar_fields
    [⟨some "jane@x.com", some "Jane D", some "0xaaa", some "incomplete", some 10⟩,
     ⟨some "jane@x.com", none, none, some "cleared", some 20⟩] "jane@x.com" "0xaaa"
    (by decide)

/- ------------------------------------------------------------------ -/
/- Claim C4.                                                           -/
/- ------------------------------------------------------------------ -/

/-- Claim C4 counterexample: a business record with no email but a
    perfectly valid chain address — a non-empty resolution key under the
    spec — produces no Identity at all: line 666 keeps only rows whose
    email is non-null, so the merge output is empty where the claim
    demands exactly one Identity for the chain-address key. -/
theorem c4_counterexample :
    merge_businesses [⟨some "Biz", none, some "0xabc", some "cleared", some 5⟩] 0 = [] ∧
    ¬ (⟨some "Biz", none, some "0xabc", some "cleared", some 5⟩ : BRec).l2_address = none := by
  refine ⟨by decide, by decide⟩

/-- Claim C4 as amended: the business merge outputs exactly one row per
    distinct (email, business_name) pair among the records whose email
    is present, and nothing else — in particular a record whose only
    resolution key is its chain address is dropped entirely, and no
    null-email row ever appears in the output. -/
theorem c4_one_per_key (rs : List BRec) (cutoff : Nat) :
    (merge_businesses rs cutoff).Pairwise
      (fun a b => ¬ (a.email, a.business_name) = (b.email, b.business_name)) ∧
    (∀ r, r ∈ rs → ¬ r.email = none →
      ∃ o, o ∈ merge_businesses rs cutoff ∧ o.email = r.email ∧
        o.business_name = r.business_name) ∧
    (∀ o, o ∈ merge_businesses rs cutoff → ¬ o.email = none ∧
      ∃ r, r ∈ rs ∧ r.email = o.email ∧ r.business_name = o.business_name) := by
  refine ⟨dedup_pairwise _ [], ?_, ?_⟩
  · intro r hr hre
    have hr2 : r ∈ sortBusinesses rs :=
      (List.perm_insertionSort (keyLE bUpd) rs).mem_iff.mpr hr
    obtain ⟨c, hc, hce, hcb⟩ := collapseBusinesses_keys rs r hr2
    have hx : expireB cutoff c ∈ (collapseBusinesses rs).map (expireB cutoff) :=
      List.mem_map_of_mem _ hc
    have hxe : (expireB cutoff c).email = r.email := by
      rw [(expireB_keys cutoff c).1, hce]
    have hxb : (expireB cutoff c).business_name = r.business_name := by
      rw [(expireB_keys cutoff c).2, hcb]
    have hxsome : (expireB cutoff c).email.isSome = true := by
      rw [hxe]
      cases he : r.email with
      | none => exact absurd he hre
      | some e => rfl
    have hxbase : expireB cutoff c ∈
        ((collapseBusinesses rs).map (expireB cutoff)).filter (fun r => r.email.isSome) :=
      List.mem_filter.mpr ⟨hx, hxsome⟩
    rcases dedup_covers _ [] _ hxbase with h3 | ⟨o, ho, hko⟩
    · exact absurd h3 (List.not_mem_nil _)
    · have h4 := Prod.mk.injEq .. ▸ hko
      refine ⟨o, ho, ?_, ?_⟩
      · rw [h4.1, hxe]
      · rw [h4.2, hxb]
  · intro o ho
    have hbase := dedup_subset _ [] o ho
    have h5 := List.mem_filter.mp hbase
    constructor
    · exact Option.isSome_iff_ne_none.mp h5.2
    · obtain ⟨c, hc, rfl⟩ := List.mem_map.mp h5.1
      obtain ⟨r, hr, hre, hrb⟩ := collapseBusinesses_shape rs c hc
      refine ⟨r, (List.perm_insertionSort (keyLE bUpd) rs).mem_iff.mp hr, ?_, ?_⟩
      · rw [(expireB_keys cutoff c).1, hre]
      · rw [(expireB_keys cutoff c).2, hrb]

/-- Witness for the amended C4 at a concrete two-record frame sharing
    one key. -/
theorem c4_witness :
    ∃ o, o ∈ merge_businesses
        [(⟨some "Biz", some "a@b.c", some "0xabc", some "cleared", some 5⟩ : BRec),
         ⟨some "Biz", some "a@b.c", none, some "declined", some 9⟩] 3 ∧
      o.email = (⟨some "Biz", some "a@b.c", some "0xabc", some "cleared", some 5⟩ : BRec).email ∧
      o.business_name
        = (⟨some "Biz", some "a@b.c", some "0xabc", some "cleared", some 5⟩ : BRec).business_name :=
  (c4_one_per_key
    [⟨some "Biz", some "a@b.c", some "0xabc", some "cleared", some 5⟩,
     ⟨some "Biz", some "a@b.c", none, some "declined", some 9⟩] 3).2.1
    ⟨some "Biz", some "a@b.c", some "0xabc", some "cleared", some 5⟩
    (by decide) (by decide)
